import Mathlib

/-!
Verification of the structured_tables parser (src/structured_tables/parser.py).

The embedding models Python strings as Lean `String` with hand-rolled,
fully computable versions of the Python string operations used by the code
(strip, lower, split on dot, substring test for a dot). Fallible Python
code (IndexError, KeyError, ValueError on unpacking) is modelled with
`Except String`. The lazy generator of `TermParser.__iter__` is modelled as
a fuel-indexed total function returning the whole emitted term stream
together with the final parser state; fuel only runs out on include chains
deeper than the supplied fuel, which mirrors the unbounded recursion of the
Python code. File and URL access performed by `_include_file` is external
to the module and is modelled by an oracle `resolve` mapping the include
value to the rows of the included resource.
-/

namespace StructuredTables

/-- Python str whitespace characters relevant to strip (ASCII). -/
def pyIsSpace (c : Char) : Bool :=
  c = ' ' || c = '\t' || c = '\n' || c = '\r' || c = '\x0b' || c = '\x0c'

/-- Python s.strip(): remove leading and trailing whitespace. -/
def pyStrip (s : String) : String :=
  ⟨((s.data.dropWhile pyIsSpace).reverse.dropWhile pyIsSpace).reverse⟩

/-- Lowercase one ASCII character, as Python str.lower does on ASCII input. -/
def pyLowerChar (c : Char) : Char :=
  if 'A' ≤ c && c ≤ 'Z' then Char.ofNat (c.toNat + 32) else c

/-- Python s.lower(). -/
def pyLower (s : String) : String :=
  ⟨s.data.map pyLowerChar⟩

/-- Helper for splitting a character list on the dot character. -/
def splitDotAux : List Char → List Char → List (List Char)
  | acc, [] => [acc.reverse]
  | acc, c :: cs =>
    if c = '.' then acc.reverse :: splitDotAux [] cs else splitDotAux (c :: acc) cs

/-- Python s.split(".") with no maxsplit: split on every dot. -/
def pySplitDot (s : String) : List String :=
  (splitDotAux [] s.data).map (fun l => ⟨l⟩)

/-- Python test "." in s. -/
def pyContainsDot (s : String) : Bool :=
  s.data.any (fun c => c = '.')

/-- Sentinel NO_TERM from parser.py line 8. -/
def NO_TERM : String := "<no_term>"

/-- Sentinel ELIDED_TERM from parser.py line 9. -/
def ELIDED_TERM : String := "<elided_term>"

/-- The fields of a parsed Term (parser.py class Term). -/
structure Term where
  parent_term : String
  record_term : String
  value : String
  term_value_name : String
  args : List String
  is_arg_child : Bool
deriving DecidableEq, Repr

/-- Term constructor, parser.py lines 15-37. Python unpacks term.split into
exactly two names, raising ValueError when the cell holds more than one dot. -/
def Term.init (term value : String) (term_args : List String)
    (is_arg_child : Bool) : Except String Term :=
  if pyContainsDot term then
    match pySplitDot term with
    | [p, r] =>
      let p := pyStrip p
      let r := pyStrip r
      .ok { parent_term := if p = "" then ELIDED_TERM else p
            record_term := r
            value := pyStrip value
            term_value_name := "@value"
            args := term_args.map pyStrip
            is_arg_child := is_arg_child }
    | _ => .error "ValueError: unpacking term.split"
  else
    .ok { parent_term := NO_TERM
          record_term := pyStrip term
          value := pyStrip value
          term_value_name := "@value"
          args := term_args.map pyStrip
          is_arg_child := is_arg_child }

/-- Term.child_terms, parser.py lines 39-44: zip the parameter map with the
args, keep the pairs whose two strips are non-empty, and construct for each a
dotted arg-child Term. Construction goes through Term.init and can therefore
raise, which the Except models. -/
def Term.child_terms (t : Term) (param_map : List String) :
    Except String (List Term) :=
  ((param_map.zip t.args).filter
      (fun p => pyStrip p.1 != "" && pyStrip p.2 != "")).mapM
    (fun p => Term.init (t.record_term ++ "." ++ p.1) p.2 [] true)

/-- Mutable state of a TermParser (parser.py lines 64-79); the association
lists are keyed with most recent binding first, matching dict overwrite. -/
structure ParserState where
  synonyms : List (String × String)
  value_names : List (String × String)
  param_map : List String
  errors : List (Term × String)
deriving DecidableEq, Repr

/-- Fresh parser state, as built by TermParser.__init__. -/
def initState : ParserState := ⟨[], [], [], []⟩

/-- Lookup in an association list, most recent binding first. -/
def slookup : List (String × String) → String → Option String
  | [], _ => none
  | (k2, v) :: rest, k => if k2 = k then some v else slookup rest k

/-- Dict store with last-write-wins semantics. -/
def supdate (m : List (String × String)) (k v : String) :
    List (String × String) :=
  (k, v) :: m

/-- TermParser.__iter__, parser.py lines 98-152, as a fuel-indexed function
from rows to the emitted Term stream and the final state. One unit of fuel is
consumed per row, so any fuel not smaller than the total number of rows
processed (included rows counted too) is sufficient. The include branch runs
a fresh nested parser on the rows the oracle resolve returns for the include
value and discards the nested state, exactly as the Python constructs a new
TermParser and never reads its state back. -/
def parseRows (resolve : String → List (List String)) :
    Nat → ParserState → List (List String) →
    Except String (List Term × ParserState)
  | _, st, [] => .ok ([], st)
  | 0, _, _ :: _ => .error "RecursionError: out of fuel"
  | fuel + 1, st, row :: rest =>
    match row.head? with
    | none => .error "IndexError: list index out of range"
    | some c0 =>
      if pyStrip c0 = "" then
        parseRows resolve fuel st rest
      else
        let c0 := (slookup st.synonyms (pyLower c0)).getD c0
        match row.get? 1 with
        | none => .error "IndexError: list index out of range"
        | some c1 =>
          match Term.init (pyLower c0) c1 (row.drop 2) false with
          | .error e => .error e
          | .ok t0 =>
            if pyLower t0.record_term = "termvaluename" then
              match t0.args.head? with
              | none => .error "IndexError: list index out of range"
              | some a0 =>
                parseRows resolve fuel
                  { st with value_names :=
                      supdate st.value_names (pyLower t0.value) a0 } rest
            else
              let t := { t0 with term_value_name :=
                (slookup st.value_names (pyLower t0.record_term)).getD "@value" }
              if pyLower t.record_term = "section" ∨ pyLower t.record_term = "term" then
                parseRows resolve fuel { st with param_map := t.args } rest
              else if pyLower t.record_term = "synonym" then
                match t.args.head? with
                | some a0 =>
                  parseRows resolve fuel
                    { st with synonyms :=
                        supdate st.synonyms (pyLower t.value) (pyLower a0) } rest
                | none =>
                  parseRows resolve fuel
                    { st with errors :=
                        st.errors ++ [(t, "list index out of range")] } rest
              else if pyLower t.record_term = "include" then
                match parseRows resolve fuel initState (resolve t.value) with
                | .error e => .error e
                | .ok (nested, _) =>
                  match parseRows resolve fuel st rest with
                  | .error e => .error e
                  | .ok (out, st2) => .ok (nested ++ out, st2)
              else
                match t.child_terms st.param_map with
                | .error e => .error e
                | .ok cs =>
                  match parseRows resolve fuel st rest with
                  | .error e => .error e
                  | .ok (out, st2) => .ok (t :: cs ++ out, st2)

/-- An include oracle for inputs that contain no include rows. -/
def noResolve : String → List (List String) := fun _ => []

/-- One node of the record tree under construction. Python mutates parent
records through add_child; the embedding records for each created node the
index of its parent in the creation-order node list, which determines the
same tree (children of a node are its later nodes in creation order). -/
structure RNode where
  term : String
  value : Option String
  term_value_name : String
  parent : Nat
deriving DecidableEq, Repr

/-- Record.__init__ applied to a Term inside generate_records, parser.py
lines 158-163 and 207: the term is stripped and a falsy term_value_name
falls back to the at-value default. -/
def mkRNode (t : Term) (p : Nat) : RNode :=
  { term := pyStrip t.record_term
    value := some t.value
    term_value_name := if t.term_value_name = "" then "@value" else t.term_value_name
    parent := p }

/-- Lookup in the last_term_map, most recent binding first. -/
def nlookup : List (String × Nat) → String → Option Nat
  | [], _ => none
  | (k2, v) :: rest, k => if k2 = k then some v else nlookup rest k

/-- Dict store for the last_term_map, last write wins. -/
def nupdate (m : List (String × Nat)) (k : String) (v : Nat) :
    List (String × Nat) :=
  (k, v) :: m

/-- The update-eligibility condition of parser.py line 212: arg children and
records with elided parent terms do not enter the last_term_map. -/
def eligible (t : Term) : Bool :=
  !t.is_arg_child && t.parent_term != ELIDED_TERM

/-- The body of the loop of generate_records, parser.py lines 205-216: look
the parent up by the lowercased parent term (KeyError when absent), append
the new record as its child, and update the map only for eligible terms. -/
def genStep (nodes : List RNode) (table : List (String × Nat)) (t : Term) :
    Except String (List RNode × List (String × Nat)) :=
  match nlookup table (pyLower t.parent_term) with
  | none => .error "KeyError"
  | some p =>
    let nodes2 := nodes ++ [mkRNode t p]
    let table2 :=
      if eligible t then
        nupdate (nupdate table ELIDED_TERM nodes.length)
          (pyLower t.record_term) nodes.length
      else table
    .ok (nodes2, table2)

/-- The loop of generate_records over a whole term stream. -/
def genFold (nodes : List RNode) (table : List (String × Nat)) :
    List Term → Except String (List RNode × List (String × Nat))
  | [] => .ok (nodes, table)
  | t :: ts =>
    match genStep nodes table t with
    | .error e => .error e
    | .ok (nodes2, table2) => genFold nodes2 table2 ts

/-- The synthetic root record, parser.py line 202. -/
def rootNode : RNode := ⟨"Root", none, "@value", 0⟩

/-- The record tree (class Record restricted to the fields generate_records
populates: term, value, term_value_name, ordered children). -/
inductive Record where
  | mk (term : String) (value : Option String) (term_value_name : String)
      (children : List Record)
deriving Repr

/-- Projection to the term field. -/
def Record.term : Record → String
  | .mk t _ _ _ => t

/-- Projection to the value field. -/
def Record.value : Record → Option String
  | .mk _ v _ _ => v

/-- Projection to the term_value_name field. -/
def Record.term_value_name : Record → String
  | .mk _ _ n _ => n

/-- Projection to the children field. -/
def Record.children : Record → List Record
  | .mk _ _ _ cs => cs

/-- Children of node i in creation order: the nodes whose parent index is i.
Node 0 is the root and is nobody's child. -/
def childIndices (nodes : List RNode) (i : Nat) : List Nat :=
  (List.range nodes.length).filter
    (fun j => j ≠ 0 && ((nodes.get? j).map RNode.parent) = some i)

/-- Rebuild the Record tree from the creation-order node list. In every list
genFold produces, the parent index of a node is strictly smaller than its own
index, so a gas of nodes.length always suffices; the gas only makes the
recursion structural. -/
def buildRecord (nodes : List RNode) : Nat → Nat → Record
  | 0, _ => Record.mk "" none "@value" []
  | gas + 1, i =>
    match nodes.get? i with
    | none => Record.mk "" none "@value" []
    | some n =>
      Record.mk n.term n.value n.term_value_name
        ((childIndices nodes i).map (buildRecord nodes gas))

/-- generate_records, parser.py lines 196-218. -/
def generate_records (ts : List Term) : Except String Record :=
  match genFold [rootNode] [(NO_TERM, 0)] ts with
  | .error e => .error e
  | .ok (nodes, _) => .ok (buildRecord nodes nodes.length 0)

/-- The Python values convert_to_dict produces: scalars (strings or None),
lists built by the multi-value merge, and dicts. -/
inductive Value where
  | scalar : Option String → Value
  | vlist : List Value → Value
  | vdict : List (String × Value) → Value
deriving Repr

/-- Lookup in an ordered dict model. -/
def alookup : List (String × Value) → String → Option Value
  | [], _ => none
  | (k2, v) :: rest, k => if k2 = k then some v else alookup rest k

/-- Plain dict assignment d[k] = v: replace in place when the key is
present, append at the end otherwise. -/
def dset : List (String × Value) → String → Value → List (String × Value)
  | [], k, v => [(k, v)]
  | (k2, w) :: rest, k, v =>
    if k2 = k then (k, v) :: rest else (k2, w) :: dset rest k v

/-- The try/except merge of parser.py lines 240-247: a missing key stores
the value directly (the KeyError handler), an existing list entry appends
(the try branch), and any other existing entry becomes a two-element list
(the AttributeError handler, since neither strings, None nor dicts have an
append method). -/
def dmerge (d : List (String × Value)) (k : String) (v : Value) :
    List (String × Value) :=
  match alookup d k with
  | none => d ++ [(k, v)]
  | some (.vlist l) => dset d k (.vlist (l ++ [v]))
  | some old => dset d k (.vlist [old, v])

mutual

/-- convert_to_dict, parser.py lines 228-255: a record without children
converts to its scalar value; otherwise the children are merged in order
into a dict and a truthy own value is then stored under term_value_name. -/
def convert_to_dict : Record → Value
  | .mk _t v _tvn [] => .scalar v
  | .mk _t v tvn (c :: cs) =>
    let d := convertFold [] (c :: cs)
    .vdict (match v with
            | some s => if s = "" then d else dset d tvn (.scalar (some s))
            | none => d)

/-- The loop over record.children of parser.py lines 239-247, carried out
left to right on an accumulating dict. -/
def convertFold : List (String × Value) → List Record → List (String × Value)
  | d, [] => d
  | d, c :: cs => convertFold (dmerge d c.term (convert_to_dict c)) cs

end

/-- The whole pipeline of the spec example: TermParser over literal rows
(no includes), then generate_records, then convert_to_dict on the root. -/
def runPipeline (rows : List (List String)) : Except String Value :=
  match parseRows noResolve rows.length initState rows with
  | .error e => .error e
  | .ok (ts, _) =>
    match generate_records ts with
    | .error e => .error e
    | .ok r => .ok (convert_to_dict r)

/-- The rows of the worked example in the spec. -/
def exampleRows : List (List String) :=
  [["table", "t1"], ["section", "", "a", "b"], ["table", "v1", "x1", "x2"]]

/-- The output the spec example asserts for exampleRows. -/
def claimedDict : Value :=
  .vdict [("table", .vdict [("a", .scalar (some "x1")),
                            ("b", .scalar (some "x2")),
                            ("@value", .scalar (some "v1"))])]

/-- The output the code actually produces for exampleRows: the first table
row also converts, and the two same-named table children merge into a list. -/
def actualDict : Value :=
  .vdict [("table", .vlist [.scalar (some "t1"),
                            .vdict [("a", .scalar (some "x1")),
                                    ("b", .scalar (some "x2")),
                                    ("@value", .scalar (some "v1"))]])]

/-- All values stored in the dict under key k, in order (spec side
description of the multi-value merge). -/
def valuesFor (pairs : List (String × Value)) (k : String) : List Value :=
  (pairs.filter (fun p => decide (p.1 = k))).map Prod.snd

/-- Spec-side collapse of the values sharing one key: a single occurrence
stays bare, two or more form the list of all of them in order. -/
def collapse : List Value → Value
  | [v] => v
  | vs => .vlist vs

/-- Spec-side description of the dict produced by the merge loop: keys in
order of first occurrence, each mapped to the collapse of all its values. -/
def specGroup : List (String × Value) → List (String × Value)
  | [] => []
  | (k, v) :: rest =>
    (k, collapse (v :: valuesFor rest k)) ::
      specGroup (rest.filter (fun p => decide ¬(p.1 = k)))
termination_by pairs => pairs.length
decreasing_by
  simp only [List.length_cons]
  exact Nat.lt_succ_of_le (List.length_filter_le _ _)

/-- One merge of a further value into the entry already stored for a key. -/
def mergeStep (w : Value) (v : Value) : Value :=
  match w with
  | .vlist l => .vlist (l ++ [v])
  | _ => .vlist [w, v]

/-- Folding mergeStep over all later values for a key. -/
def mergeAll : Value → List Value → Value
  | w, [] => w
  | w, v :: vs => mergeAll (mergeStep w v) vs

/-- Index of the last term of the list that is eligible for the
last_term_map update (not an arg child, parent not elided). -/
def lastEligibleIdx : List Term → Option Nat
  | [] => none
  | t :: ts =>
    match lastEligibleIdx ts with
    | some i => some (i + 1)
    | none => if eligible t then some 0 else none

/-! Helper lemmas about the dot splitter. -/

/-- Splitting a dot-free character list yields the single whole segment. -/
theorem splitDotAux_no_dot (l : List Char) :
    ∀ acc, l.any (fun c => c = '.') = false →
      splitDotAux acc l = [acc.reverse ++ l] := by
  induction l with
  | nil => intro acc _; simp [splitDotAux]
  | cons c cs ih =>
    intro acc h
    simp only [List.any_cons, Bool.or_eq_false_iff, decide_eq_false_iff_not] at h
    rw [splitDotAux.eq_2, if_neg h.1, ih _ h.2]
    simp

/-- A string without a dot splits into the singleton of itself. -/
theorem pySplitDot_no_dot (s : String) (h : pyContainsDot s = false) :
    pySplitDot s = [s] := by
  unfold pySplitDot
  rw [splitDotAux_no_dot _ _ h]
  simp

/-- Splitting passes unchanged over a dot-free prefix up to the first dot. -/
theorem splitDotAux_through (a : List Char) :
    ∀ acc l, a.any (fun c => c = '.') = false →
      splitDotAux acc (a ++ '.' :: l) = (acc.reverse ++ a) :: splitDotAux [] l := by
  induction a with
  | nil => intro acc l _; simp [splitDotAux]
  | cons c cs ih =>
    intro acc l h
    simp only [List.any_cons, Bool.or_eq_false_iff, decide_eq_false_iff_not] at h
    rw [List.cons_append, splitDotAux.eq_2, if_neg h.1, ih _ _ h.2]
    simp

/-- Joining two dot-free strings with a dot splits back into the two parts. -/
theorem pySplitDot_join (a b : String)
    (ha : pyContainsDot a = false) (hb : pyContainsDot b = false) :
    pySplitDot (a ++ "." ++ b) = [a, b] := by
  unfold pySplitDot
  have hdata : (a ++ "." ++ b).data = a.data ++ '.' :: b.data := by
    simp [String.data_append]
  rw [hdata, splitDotAux_through _ _ _ ha, splitDotAux_no_dot _ _ hb]
  simp

/-- A string with a dot glued into the middle contains a dot. -/
theorem pyContainsDot_join (a b : String) :
    pyContainsDot (a ++ "." ++ b) = true := by
  unfold pyContainsDot
  simp [String.data_append]

/-- mapM over a list on which the function always succeeds. -/
theorem mapM_ok {α β : Type} (l : List α) (f : α → Except String β) (g : α → β)
    (h : ∀ x ∈ l, f x = .ok (g x)) : l.mapM f = .ok (l.map g) := by
  induction l with
  | nil => rfl
  | cons x xs ih =>
    rw [List.mapM_cons, h x (by simp)]
    rw [ih (fun y hy => h y (by simp [hy]))]
    rfl

/-! Helper lemmas about generate_records. -/

/-- After a successful genFold, the ELIDED_TERM entry of the table points at
the record created for the last eligible term of the stream, offset by the
number of records already present before the fold; with no eligible term the
entry is whatever it was initially. -/
theorem genFold_elided (ts : List Term) :
    ∀ nodes0 table0 nodes table,
      genFold nodes0 table0 ts = .ok (nodes, table) →
      nlookup table ELIDED_TERM =
        match lastEligibleIdx ts with
        | some i => some (nodes0.length + i)
        | none => nlookup table0 ELIDED_TERM := by
  induction ts with
  | nil =>
    intro nodes0 table0 nodes table h
    simp [genFold] at h
    simp [lastEligibleIdx, h.2]
  | cons t ts ih =>
    intro nodes0 table0 nodes table h
    rw [genFold] at h
    rcases hp : nlookup table0 (pyLower t.parent_term) with _ | p
    · rw [genStep, hp] at h; exact absurd h (by simp)
    · rw [genStep, hp] at h
      simp only at h
      have := ih _ _ _ _ h
      rw [this]
      rcases hl : lastEligibleIdx ts with _ | i
      · simp only [lastEligibleIdx, hl]
        by_cases he : eligible t
        · rw [if_pos he]
          simp only [nupdate, nlookup]
          by_cases hrec : pyLower t.record_term = ELIDED_TERM
          · rw [if_pos hrec]; simp [he]
          · rw [if_neg hrec]; simp [he]
        · rw [if_neg he]; simp [he]
      · simp only [lastEligibleIdx, hl, List.length_append, List.length_singleton,
          Option.some.injEq]
        omega

/-- genFold splits over list append. -/
theorem genFold_append (ts us : List Term) :
    ∀ nodes table,
      genFold nodes table (ts ++ us) =
        match genFold nodes table ts with
        | .error e => .error e
        | .ok (n, tb) => genFold n tb us := by
  induction ts with
  | nil => intro nodes table; simp [genFold]
  | cons t ts ih =>
    intro nodes table
    rw [List.cons_append, genFold, genFold]
    rcases h : genStep nodes table t with e | ⟨n2, tb2⟩
    · rfl
    · exact ih n2 tb2

/-! Helper lemmas about the dict merge of convert_to_dict. -/

/-- convert_to_dict never returns a bare list: lists only ever arise inside
dict entries from the multi-value merge. -/
theorem convert_ne_vlist (r : Record) (l : List Value) :
    convert_to_dict r ≠ .vlist l := by
  rcases r with ⟨t, v, tvn, _ | ⟨c, cs⟩⟩
  · simp [convert_to_dict]
  · rw [convert_to_dict.eq_def]
    rcases v with _ | s
    · simp
    · by_cases h : s = "" <;> simp [h]

/-- Merging a value for the key stored at the head of the dict. -/
theorem dmerge_head_hit (k : String) (w : Value) (d : List (String × Value))
    (v : Value) : dmerge ((k, w) :: d) k v = (k, mergeStep w v) :: d := by
  rcases w with os | l | m <;>
    simp [dmerge, alookup, dset, mergeStep]

/-- Merging a value for a different key passes over the head of the dict. -/
theorem dmerge_head_miss (k k2 : String) (w : Value) (d : List (String × Value))
    (v : Value) (h : k ≠ k2) :
    dmerge ((k, w) :: d) k2 v = (k, w) :: dmerge d k2 v := by
  rw [dmerge, alookup, if_neg h, dmerge]
  rcases ha : alookup d k2 with _ | w2
  · simp
  · rcases w2 with os | l | m <;> simp [dset, if_neg h]

/-- Merging further values into an entry that is already a list appends. -/
theorem mergeAll_vlist (vs : List Value) :
    ∀ l, mergeAll (.vlist l) vs = .vlist (l ++ vs) := by
  induction vs with
  | nil => intro l; simp [mergeAll]
  | cons v vs ih =>
    intro l
    rw [mergeAll, mergeStep, ih]
    simp

/-- Merging all later values into a non-list first value collapses into the
spec description: a lone value stays bare, several become the full list. -/
theorem mergeAll_collapse (w : Value) (hw : ∀ l, w ≠ .vlist l)
    (vs : List Value) : mergeAll w vs = collapse (w :: vs) := by
  rcases vs with _ | ⟨v, vs2⟩
  · rw [mergeAll, collapse]
  · have hstep : mergeStep w v = .vlist [w, v] := by
      rcases w with os | l | m
      · rfl
      · exact absurd rfl (hw l)
      · rfl
    rw [mergeAll, hstep, mergeAll_vlist]
    rw [collapse.eq_def]
    simp

/-- The exception-driven left fold of dmerge keeps the entry of the first
key at the front: it ends up holding the merge of all values for that key,
and the remaining pairs fold independently. -/
theorem foldl_dmerge_cons (rest : List (String × Value)) :
    ∀ (d : List (String × Value)) (k : String) (w : Value),
      List.foldl (fun d p => dmerge d p.1 p.2) ((k, w) :: d) rest =
        (k, mergeAll w (valuesFor rest k)) ::
          List.foldl (fun d p => dmerge d p.1 p.2) d
            (rest.filter (fun p => decide ¬(p.1 = k))) := by
  induction rest with
  | nil => intro d k w; simp [valuesFor, mergeAll]
  | cons p2 rest2 ih =>
    intro d k w
    rcases p2 with ⟨k2, v2⟩
    by_cases h : k2 = k
    · subst h
      rw [List.foldl_cons]
      simp only [dmerge_head_hit]
      rw [ih]
      simp [valuesFor, mergeAll]
    · rw [List.foldl_cons]
      simp only [dmerge_head_miss k k2 w d v2 (fun hk => h hk.symm)]
      rw [ih]
      have hv : valuesFor ((k2, v2) :: rest2) k = valuesFor rest2 k := by
        simp [valuesFor, h]
      have hf : ((k2, v2) :: rest2).filter (fun p => decide ¬(p.1 = k)) =
          (k2, v2) :: rest2.filter (fun p => decide ¬(p.1 = k)) := by
        simp [List.filter_cons, h]
      rw [hv, hf, List.foldl_cons]

/-- On pair lists whose values are never bare lists (as produced by
convert_to_dict), the exception-driven merge fold equals the spec-side
grouping of all values by key. -/
theorem foldl_specGroup_aux (n : Nat) :
    ∀ (pairs : List (String × Value)), pairs.length ≤ n →
      (∀ p ∈ pairs, ∀ l, p.2 ≠ Value.vlist l) →
      List.foldl (fun d p => dmerge d p.1 p.2) [] pairs = specGroup pairs := by
  induction n with
  | zero =>
    intro pairs hlen _
    have hp : pairs = [] := List.eq_nil_of_length_eq_zero (Nat.le_zero.mp hlen)
    subst hp
    rw [specGroup]
    rfl
  | succ n ih =>
    intro pairs hlen hnl
    rcases pairs with _ | ⟨⟨k, v⟩, rest⟩
    · rw [specGroup]
      rfl
    · rw [List.foldl_cons]
      have h0 : dmerge [] k v = (k, v) :: [] := rfl
      rw [h0, foldl_dmerge_cons]
      rw [ih (rest.filter (fun p => decide ¬(p.1 = k)))
        (le_trans (List.length_filter_le _ _) (Nat.le_of_succ_le_succ hlen))
        (fun p hp => hnl p (List.mem_cons_of_mem _ (List.mem_of_mem_filter hp)))]
      rw [mergeAll_collapse v (hnl (k, v) (List.mem_cons_self _ _)) _]
      rw [specGroup]

/-- The child loop of convert_to_dict is a left fold of dmerge over the
converted children. -/
theorem convertFold_foldl (cs : List Record) :
    ∀ d, convertFold d cs =
      List.foldl (fun d p => dmerge d p.1 p.2) d
        (cs.map (fun c => (c.term, convert_to_dict c))) := by
  induction cs with
  | nil => intro d; rfl
  | cons c cs ih =>
    intro d
    rw [convertFold, List.map_cons, List.foldl_cons, ih]

/-! The claim theorems. -/

/-- C1, counterexample: on the spec example rows the pipeline does not
produce the claimed dict mapping the table key straight to the nested dict:
the first table row is also emitted and converted, so the table key holds a
two-element list instead. -/
theorem c1_spec_example_counterexample :
    runPipeline exampleRows ≠ .ok claimedDict := by
  have h1 : runPipeline exampleRows = .ok actualDict := rfl
  intro h
  rw [h1] at h
  simp [actualDict, claimedDict] at h

/-- C1, amended: on the example rows the pipeline yields the dict that maps
the table key to the list of the first table record converted value and the
dict of the second table record (with its arg children and at-value entry),
in that order. -/
theorem c1_spec_example_amended :
    runPipeline exampleRows = .ok actualDict := rfl

/-- C2: contrary to the spec requirement that short rows be detected and
reported without crashing, a one-cell row with a non-blank cell makes the
iteration raise an uncaught IndexError at the access of the value cell,
aborting the parse. -/
theorem c2_short_row_crashes :
    parseRows noResolve 1 initState [["x"]] =
      .error "IndexError: list index out of range" := rfl

/-- C3: convert_to_dict returns the scalar value on a childless record, and
otherwise the dict grouping the converted children by term key in order of
first occurrence - a key occurring once maps to its converted value directly
and a key occurring several times maps to the list of all its converted
values in order - with the own value additionally stored under the
term_value_name key when it is non-empty. -/
theorem c3_convert_to_dict_merge_semantics (t : String) (v : Option String)
    (tvn : String) (children : List Record) :
    convert_to_dict (Record.mk t v tvn children) =
      match children with
      | [] => Value.scalar v
      | _ :: _ =>
        Value.vdict
          (let d := specGroup (children.map (fun c => (c.term, convert_to_dict c)))
           match v with
           | some s => if s = "" then d else dset d tvn (.scalar (some s))
           | none => d) := by
  rcases children with _ | ⟨c, cs⟩
  · rw [convert_to_dict.eq_def]
  · rw [convert_to_dict.eq_def]
    have h1 : convertFold [] (c :: cs) =
        specGroup ((c :: cs).map (fun c => (c.term, convert_to_dict c))) := by
      rw [convertFold_foldl]
      apply foldl_specGroup_aux ((c :: cs).map
        (fun c => (c.term, convert_to_dict c))).length _ le_rfl
      intro p hp l
      rcases List.mem_map.mp hp with ⟨c2, _, hc2⟩
      rw [← hc2]
      exact convert_ne_vlist c2 l
    simp only [h1]

/-- C4: each term is appended as a child of the record found by looking up
the lowercased parent term in the table (error when absent), and the table
entries for the lowercased record term and for ELIDED_TERM are both set to
the new record exactly when the term is eligible (not an arg child, parent
not elided); consequently after any successful fold from the seeded initial
state the ELIDED_TERM entry names the record of the last eligible term. -/
theorem c4_generate_records_table_update :
    (∀ nodes table t,
      genStep nodes table t =
        match nlookup table (pyLower t.parent_term) with
        | none => .error "KeyError"
        | some p =>
          .ok (nodes ++ [mkRNode t p],
            if eligible t then
              nupdate (nupdate table ELIDED_TERM nodes.length)
                (pyLower t.record_term) nodes.length
            else table)) ∧
    (∀ ts nodes table,
      genFold [rootNode] [(NO_TERM, 0)] ts = .ok (nodes, table) →
      nlookup table ELIDED_TERM = (lastEligibleIdx ts).map (· + 1)) := by
  constructor
  · intro nodes table t
    rw [genStep]
  · intro ts nodes table h
    have := genFold_elided ts _ _ _ _ h
    rw [this]
    rcases hl : lastEligibleIdx ts with _ | i
    · simp [nlookup, NO_TERM, ELIDED_TERM]
    · simp [Nat.add_comm]

/-- C4 witness: an eligible table term followed by an ineligible arg child
leaves the ELIDED_TERM entry pointing at the record of the eligible term. -/
theorem c4_generate_records_table_update_witness :
    nlookup [("table", 1), (ELIDED_TERM, 1), (NO_TERM, 0)] ELIDED_TERM =
      some 1 :=
  (c4_generate_records_table_update.2
    [⟨NO_TERM, "table", "t1", "@value", [], false⟩,
     ⟨"table", "a", "x", "@value", [], true⟩]
    [rootNode, ⟨"table", some "t1", "@value", 0⟩, ⟨"a", some "x", "@value", 1⟩]
    [("table", 1), (ELIDED_TERM, 1), (NO_TERM, 0)] rfl).trans (by decide)

/-- C5, counterexample: a name cell with two dots is not split at the first
dot; the constructor raises instead of producing the Term with parent a and
record b.c that the claim describes. -/
theorem c5_multi_dot_counterexample :
    pyContainsDot "a.b.c" = true ∧
    Term.init "a.b.c" "v0" [] false = .error "ValueError: unpacking term.split" :=
  ⟨rfl, rfl⟩

/-- C5, amended: a cell without a dot gives parent NO_TERM and the trimmed
cell as record; a cell with exactly one dot is split there, both halves
trimmed, an empty prefix giving ELIDED_TERM; a cell with two or more dots
makes the constructor raise ValueError. -/
theorem c5_term_split_amended : ∀ (cell v : String) (args : List String) (b : Bool),
    (pyContainsDot cell = false →
      Term.init cell v args b =
        .ok ⟨NO_TERM, pyStrip cell, pyStrip v, "@value", args.map pyStrip, b⟩) ∧
    (∀ p r, pySplitDot cell = [p, r] →
      Term.init cell v args b =
        .ok ⟨if pyStrip p = "" then ELIDED_TERM else pyStrip p, pyStrip r,
             pyStrip v, "@value", args.map pyStrip, b⟩) ∧
    ((pySplitDot cell).length ≠ 2 → pyContainsDot cell = true →
      Term.init cell v args b = .error "ValueError: unpacking term.split") := by
  intro cell v args b
  refine ⟨fun h => ?_, fun p r h => ?_, fun h hc => ?_⟩
  · simp [Term.init, h]
  · have hc : pyContainsDot cell = true := by
      by_contra hc
      rw [pySplitDot_no_dot cell (by simpa using hc)] at h
      simp at h
    simp [Term.init, hc, h]
  · rcases hl : pySplitDot cell with _ | ⟨a, _ | ⟨c, _ | ds⟩⟩
    · simp [Term.init, hc, hl]
    · simp [Term.init, hc, hl]
    · exact absurd (by rw [hl]; rfl) h
    · simp [Term.init, hc, hl]

/-- C5 witness: a one-dot cell with spaces splits and trims as described. -/
theorem c5_term_split_amended_witness :
    Term.init " p . r " " v " [" a "] false =
      .ok ⟨"p", "r", "v", "@value", ["a"], false⟩ :=
  ((c5_term_split_amended " p . r " " v " [" a "] false).2.1 " p " " r "
    (by decide)).trans (congrArg Except.ok (by decide))

/-- C6, counterexample: a parameter name containing a dot passes the
non-empty filter but makes child_terms raise through the nested Term
constructor instead of yielding the promised child term. -/
theorem c6_dotted_param_counterexample :
    Term.child_terms ⟨NO_TERM, "x", "v", "@value", ["v1"], false⟩ ["a.b"] =
      .error "ValueError: unpacking term.split" ∧
    pyStrip "a.b" ≠ "" ∧ pyStrip "v1" ≠ "" := by
  refine ⟨rfl, ?_, ?_⟩
  · decide
  · decide

/-- C6, amended: when the record term and every parameter name are dot
free, child_terms yields exactly the positional pairs with both strips
non-empty, in order, each as the arg-child Term built from the dotted name,
with the trimmed arg string as value and no own args. -/
theorem c6_child_terms_amended : ∀ (t : Term) (pm : List String),
    pyContainsDot t.record_term = false →
    (∀ p ∈ pm, pyContainsDot p = false) →
    Term.child_terms t pm =
      .ok (((pm.zip t.args).filter
          (fun p => pyStrip p.1 != "" && pyStrip p.2 != "")).map
        (fun p =>
          ⟨if pyStrip t.record_term = "" then ELIDED_TERM
            else pyStrip t.record_term,
           pyStrip p.1, pyStrip p.2, "@value", [], true⟩)) := by
  intro t pm hrec hpm
  unfold Term.child_terms
  apply mapM_ok
  intro p hp
  have hp1 : p.1 ∈ pm := by
    have := List.mem_filter.mp hp
    exact (List.of_mem_zip this.1).1
  have hpdot : pyContainsDot p.1 = false := hpm _ hp1
  rw [Term.init]
  rw [if_pos (pyContainsDot_join _ _)]
  rw [pySplitDot_join _ _ hrec hpdot]
  rfl

/-- C6 witness: a two-parameter map over three args keeps the two pairs
whose strips are non-empty and drops the blank pair. -/
theorem c6_child_terms_amended_witness :
    Term.child_terms ⟨NO_TERM, "x", "v", "@value", [" v1 ", "", "v3"], false⟩
        ["a", " ", "b", "c"] =
      .ok [⟨"x", "a", "v1", "@value", [], true⟩,
           ⟨"x", "b", "v3", "@value", [], true⟩] :=
  (c6_child_terms_amended ⟨NO_TERM, "x", "v", "@value", [" v1 ", "", "v3"], false⟩
    ["a", " ", "b", "c"] (by decide) (by decide)).trans
    (congrArg Except.ok (by decide))

/-- C7: a row whose record term lowercases to include emits no term of its
own; the stream of the fresh nested parse of the resolved resource appears
at exactly the include row position, fully before the terms of the
subsequent rows, and the includer state continues unchanged. -/
theorem c7_include_splices_stream (resolve : String → List (List String))
    (fuel : Nat) (st : ParserState) (c0 c1 : String) (cells : List String)
    (rest : List (List String)) (t0 : Term)
    (h0 : pyStrip c0 ≠ "")
    (ht : Term.init (pyLower ((slookup st.synonyms (pyLower c0)).getD c0)) c1
        cells false = .ok t0)
    (hinc : pyLower t0.record_term = "include")
    (nested out : List Term) (nst st2 : ParserState)
    (hn : parseRows resolve fuel initState (resolve t0.value) = .ok (nested, nst))
    (hr : parseRows resolve fuel st rest = .ok (out, st2)) :
    parseRows resolve (fuel + 1) st ((c0 :: c1 :: cells) :: rest) =
      .ok (nested ++ out, st2) := by
  rw [parseRows]
  simp only [List.head?, List.get?, List.drop]
  rw [if_neg h0]
  rw [ht]
  simp only [hinc]
  rw [if_neg (by decide), if_neg (by decide), if_neg (by decide), if_pos trivial,
    hn, hr]

/-- C7 witness: an include row whose resource resolves to one data row
splices that row term before the following data row term. -/
theorem c7_include_splices_stream_witness :
    parseRows (fun _ => [["a", "b"]]) 2 initState
        [["include", "f"], ["c", "d"]] =
      .ok ([⟨NO_TERM, "a", "b", "@value", [], false⟩,
            ⟨NO_TERM, "c", "d", "@value", [], false⟩], initState) :=
  c7_include_splices_stream (fun _ => [["a", "b"]]) 1 initState "include" "f"
    [] [["c", "d"]] ⟨NO_TERM, "include", "f", "@value", [], false⟩
    (by decide) rfl rfl
    [⟨NO_TERM, "a", "b", "@value", [], false⟩]
    [⟨NO_TERM, "c", "d", "@value", [], false⟩] initState initState rfl rfl

/-- C8: a row whose record term lowercases to synonym emits nothing; with a
first arg present the lowercased alias binding is registered and parsing
continues on the remaining rows, and with no args a recoverable error pair
is appended to the accumulating error list and parsing also continues. -/
theorem c8_synonym_rows (resolve : String → List (List String)) (fuel : Nat)
    (st : ParserState) (c0 c1 : String) (cells : List String)
    (rest : List (List String)) (t0 : Term)
    (h0 : pyStrip c0 ≠ "")
    (ht : Term.init (pyLower ((slookup st.synonyms (pyLower c0)).getD c0)) c1
        cells false = .ok t0)
    (hsyn : pyLower t0.record_term = "synonym") :
    (∀ a as, t0.args = a :: as →
      parseRows resolve (fuel + 1) st ((c0 :: c1 :: cells) :: rest) =
        parseRows resolve fuel
          { st with synonyms := supdate st.synonyms (pyLower t0.value) (pyLower a) }
          rest) ∧
    (t0.args = [] →
      parseRows resolve (fuel + 1) st ((c0 :: c1 :: cells) :: rest) =
        parseRows resolve fuel
          { st with errors := st.errors ++
              [({ t0 with term_value_name :=
                    (slookup st.value_names (pyLower t0.record_term)).getD "@value" },
                "list index out of range")] }
          rest) := by
  constructor
  · intro a as ha
    rw [parseRows]
    simp only [List.head?, List.get?, List.drop]
    rw [if_neg h0, ht]
    simp only [hsyn, ha]
    rw [if_neg (by decide), if_neg (by decide), if_pos trivial]
  · intro ha
    rw [parseRows]
    simp only [List.head?, List.get?, List.drop]
    rw [if_neg h0, ht]
    simp only [hsyn, ha]
    rw [if_neg (by decide), if_neg (by decide), if_pos trivial]

/-- C8 witness: a synonym row with a target registers the lowercased pair
and emits nothing, and a synonym row without args records the error pair
and emits nothing. -/
theorem c8_synonym_rows_witness :
    parseRows noResolve 2 initState [["synonym", " A ", " B "]] =
      .ok ([], ⟨[("a", "b")], [], [], []⟩) ∧
    parseRows noResolve 2 initState [["synonym", "x"]] =
      .ok ([], ⟨[], [], [],
        [(⟨NO_TERM, "synonym", "x", "@value", [], false⟩,
          "list index out of range")]⟩) :=
  ⟨((c8_synonym_rows noResolve 1 initState "synonym" " A " [" B "] []
      ⟨NO_TERM, "synonym", "A", "@value", ["B"], false⟩
      (by decide) rfl rfl).1 "B" [] rfl).trans rfl,
   ((c8_synonym_rows noResolve 1 initState "synonym" "x" [] []
      ⟨NO_TERM, "synonym", "x", "@value", [], false⟩
      (by decide) rfl rfl).2 rfl).trans rfl⟩

/-- C9: a row whose first cell lowercases to termvaluename but carries no
third cell leaves args empty, and the iteration raises an uncaught
IndexError at the args access, aborting the parse instead of recording a
recoverable error. -/
theorem c9_termvaluename_short_row_raises :
    parseRows noResolve 1 initState [["termvaluename", "x"]] =
      .error "IndexError: list index out of range" := rfl

/-- C10: generate_records raises KeyError and returns no tree as soon as an
incoming term names a lowercased parent that is absent from the lookup
table built so far. -/
theorem c10_generate_records_keyerror (ts : List Term) (t : Term)
    (rest : List Term) (nodes : List RNode) (table : List (String × Nat))
    (hfold : genFold [rootNode] [(NO_TERM, 0)] ts = .ok (nodes, table))
    (hmiss : nlookup table (pyLower t.parent_term) = none) :
    generate_records (ts ++ t :: rest) = .error "KeyError" := by
  rw [generate_records, genFold_append, hfold]
  simp only [genFold, genStep, hmiss]

/-- C10 witness: a first term with an elided parent hits the seeded table,
which only holds NO_TERM, and the whole call errors. -/
theorem c10_generate_records_keyerror_witness :
    generate_records [⟨ELIDED_TERM, "x", "v", "@value", [], false⟩] =
      .error "KeyError" :=
  c10_generate_records_keyerror [] ⟨ELIDED_TERM, "x", "v", "@value", [], false⟩
    [] [rootNode] [(NO_TERM, 0)] rfl (by decide)

end StructuredTables
